import Mathlib

/-!
# Verification of the dineplan HTTP router and demo application

This file gives a shallow embedding, in Lean 4, of the Go sources
`restFramework.go` (path matcher, route table, admission gate, response
writer) and the demo `main.go` (user repository and its three handlers),
together with theorems settling the specification claims about them.

Conventions of the embedding:
* Go strings are Lean `String`s; we manipulate their underlying `List Char`
  directly (`s.data`) so that all functions are structurally recursive and
  kernel-evaluable.  All the strings involved are ASCII, so byte indexing
  in Go coincides with character indexing here.
* Go maps (`map[string]string`, params and headers) are association lists
  with in-place overwrite (`mapSet`), which preserves key uniqueness —
  extensionally the same as a Go map; lookup is `mapGet`.
* The bytes the `Response` pushes to the underlying `http.ResponseWriter`
  are recorded as a list of `OutEvent`s (header sets, the status line,
  raw data writes).
* The buffered channel used as a worker pool is modelled as a counting
  semaphore transition system (`GateStep` / `GateReach`).
-/

/-! ## String helpers (models of `strings.Trim`, `strings.Split`,
`strings.HasPrefix(·, ":")`, `s[1:]`, `strconv.Atoi`) -/

/-- Model of Go `strings.Trim(s, cutset)` for a single-character cutset:
drop every leading and trailing occurrence of `c`. -/
def trimChar (s : String) (c : Char) : String :=
  ⟨((s.data.dropWhile (· = c)).reverse.dropWhile (· = c)).reverse⟩

/-- Split a character list on a separator character.  Mirrors Go
`strings.Split` with a one-character separator: the empty list yields one
empty segment, and adjacent separators yield empty segments. -/
def splitOnChar (c : Char) : List Char → List (List Char)
  | [] => [[]]
  | x :: xs =>
    if x = c then [] :: splitOnChar c xs
    else
      match splitOnChar c xs with
      | [] => [[x]]
      | seg :: rest => (x :: seg) :: rest

/-- Model of Go `strings.Split(s, "/")` (after packaging segments back as
strings). -/
def goSplit (s : String) (c : Char) : List String :=
  (splitOnChar c s.data).map fun l => ⟨l⟩

/-- The segment list the dispatcher computes from a path or a pattern:
`strings.Split(strings.Trim(p, "/"), "/")`. -/
def pathPartsOf (p : String) : List String :=
  goSplit (trimChar p '/') '/'

/-- Model of `strings.HasPrefix(part, ":")`: the segment's first character
is a colon. -/
def isParamSeg (s : String) : Bool :=
  match s.data with
  | c :: _ => c = ':'
  | [] => false

/-- Model of the Go slice `part[1:]` on a segment whose first byte is the
(one-byte) colon. -/
def dropColon (s : String) : String := ⟨s.data.drop 1⟩

/-- Accumulating base-10 digit parse; fails on the first non-digit. -/
def parseDigitsAux (acc : Nat) : List Char → Option Nat
  | [] => some acc
  | c :: cs =>
    if c.isDigit then parseDigitsAux (10 * acc + (c.toNat - 48)) cs else none

/-- All-digit parse of a character list (`none` if empty or any non-digit),
the digit part of `strconv.Atoi`. -/
def parseDigits : List Char → Option Nat
  | [] => none
  | l => parseDigitsAux 0 l

/-- Model of `strconv.Atoi`: optional sign followed by at least one digit;
anything else is an error (`none`).  (Overflow of 64-bit `int` is not
modelled; no claim involves numbers of that size.) -/
def atoi? (s : String) : Option Int :=
  match s.data with
  | [] => none
  | '+' :: rest => (parseDigits rest).map Int.ofNat
  | '-' :: rest => (parseDigits rest).map fun n => -(n : Int)
  | l => (parseDigits l).map Int.ofNat

/-- The value `strconv.Atoi` leaves in its first result on error is `0`;
`Response.Status` ignores the error, so this is what it stores. -/
def goAtoi (s : String) : Int := (atoi? s).getD 0

/-! ## Association-list maps (models of Go `map[string]string` and
`map[string][]string`) -/

/-- Map update `m[k] = v`: overwrite in place if the key is present,
append otherwise.  Keeps keys unique, like a Go map. -/
def mapSet {α : Type} (m : List (String × α)) (k : String) (v : α) :
    List (String × α) :=
  match m with
  | [] => [(k, v)]
  | (k', v') :: rest =>
    if k' = k then (k, v) :: rest else (k', v') :: mapSet rest k v

/-- Map lookup `m[k]` (as an `Option`; Go returns the zero value on a
miss, which callers recover with `getD`). -/
def mapGet {α : Type} (m : List (String × α)) (k : String) : Option α :=
  match m with
  | [] => none
  | (k', v') :: rest => if k' = k then some v' else mapGet rest k

/-! ## PathMatcher (the per-route inner loop of `handleRequest`) -/

/-- The bound path parameters of a request. -/
abbrev Params := List (String × String)

/-- The inner matching loop of `handleRequest`: walk the (equal-length)
pattern and path segment lists; a `:`-prefixed pattern segment binds its
name (`part[1:]`) to the path segment, a literal segment must be equal or
the whole match fails.  Bindings are accumulated by prepending, so
`lookupParam` (first hit) sees the latest write — exactly the Go map
`params[part[1:]] = pathParts[i]`. -/
def matchLoop : List String → List String → Params → Option Params
  | [], [], ps => some ps
  | rp :: rps, pp :: pps, ps =>
    if isParamSeg rp then matchLoop rps pps ((dropColon rp, pp) :: ps)
    else if rp = pp then matchLoop rps pps ps
    else none
  | _, _, _ => none

/-- Matching a whole pattern segment list against a path segment list,
starting from no bindings. -/
def matchSegs (rps pps : List String) : Option Params :=
  matchLoop rps pps []

/-- First-hit lookup in a `Params` list (the latest binding, since
`matchLoop` prepends). -/
def lookupParam (ps : Params) (k : String) : Option String :=
  mapGet ps k

/-- Model of `Request.PathParam`: Go map indexing returns the zero value
`""` for an absent key. -/
def pathParam (ps : Params) (k : String) : String :=
  (lookupParam ps k).getD ""

/-! ## RouteTable (`Route`, `addRoute`, and the lookup loop of
`handleRequest`) -/

/-- A registered route: the pattern string and its handler, identified by
an opaque number (handlers are Go closures; only their identity and the
parameters they are invoked with matter to the claims). -/
structure Route where
  path : String
  handler : Nat
deriving DecidableEq

/-- One candidate step of `handleRequest`'s loop: split the route pattern,
skip on segment-count mismatch (`continue`), otherwise run the matching
loop. -/
def tryMatch (pat : String) (pathParts : List String) : Option Params :=
  let routeParts := pathPartsOf pat
  if routeParts.length = pathParts.length then matchLoop routeParts pathParts []
  else none

/-- The `for _, route := range routes` loop of `handleRequest`: first
matching route wins, its handler and bound params are returned; `none`
models falling through to `http.NotFound`. -/
def lookupRoute (routes : List Route) (pathParts : List String) :
    Option (Nat × Params) :=
  match routes with
  | [] => none
  | r :: rest =>
    match tryMatch r.path pathParts with
    | some ps => some (r.handler, ps)
    | none => lookupRoute rest pathParts

/-- Model of `Server.addRoute` for one method: append to the method's
route list. -/
def addRoute (routes : List Route) (r : Route) : List Route :=
  routes ++ [r]

/-- Registering a list of routes in order, each through `addRoute`. -/
def registerAll (rs : List Route) : List Route :=
  rs.foldl addRoute []

/-! ## ResponseWriter (`Response` and its methods) -/

/-- One interaction with the underlying `http.ResponseWriter`:
`writer.Header().Set(k, v)`, `writer.WriteHeader(code)`, or a raw byte
write (`fmt.Fprintf` / `writer.Write`). -/
inductive OutEvent
  | setHeader (k v : String)
  | writeStatus (code : Int)
  | data (s : String)
deriving DecidableEq

/-- Model of the `Response` struct.  `out` records, in order, everything
pushed to the underlying writer. -/
structure Response where
  headerWritten : Bool
  status : Int
  headers : List (String × String)
  out : List OutEvent
deriving DecidableEq

/-- `NewResponse`: status defaults to `http.StatusOK = 200`, empty header
map, headers not yet written. -/
def newResponse : Response :=
  { headerWritten := false, status := 200, headers := [], out := [] }

/-- `Response.Header`: records the header only while headers are not yet
written. -/
def Response.Header (r : Response) (k v : String) : Response :=
  if r.headerWritten then r else { r with headers := mapSet r.headers k v }

/-- `Response.Status`: parses the string with `strconv.Atoi`, ignoring the
error (non-numeric input stores `0`).  Note: NOT guarded by
`headerWritten` — the field is overwritten unconditionally. -/
def Response.Status (r : Response) (s : String) : Response :=
  { r with status := goAtoi s }

/-- `Response.writeHeaders`: if not yet written, push every recorded
header with `Set`, then the status line, and latch the flag.  Otherwise a
no-op. -/
def Response.writeHeaders (r : Response) : Response :=
  if r.headerWritten then r
  else
    { r with
      out := r.out ++ r.headers.map (fun kv => OutEvent.setHeader kv.1 kv.2)
              ++ [OutEvent.writeStatus r.status]
      headerWritten := true }

/-- Hex rendering of a length, as `fmt.Fprintf("%x", n)` (lowercase). -/
def toHex (n : Nat) : String := ⟨Nat.toDigits 16 n⟩

/-- `Response.End`: flush headers, and if the recorded headers carry
`Transfer-Encoding: chunked` (Go map indexing: zero value `""` when
absent), emit the terminating zero-length chunk. -/
def Response.End (r : Response) : Response :=
  let r := r.writeHeaders
  if (mapGet r.headers "Transfer-Encoding").getD "" = "chunked" then
    { r with out := r.out ++ [OutEvent.data "0\r\n\r\n"] }
  else r

/-- `Response.Json`: set `Content-Type`, flush headers, then stream the
encoded payload.  The payload is given already serialized (serialization
is the standard `encoding/json` encoder, an external collaborator); `Encode`
appends a newline.  The encoder error return is not modelled: every
payload the repository encodes serializes successfully. -/
def Response.Json (r : Response) (serialized : String) : Response :=
  let r := r.Header "Content-Type" "application/json"
  let r := r.writeHeaders
  { r with out := r.out ++ [OutEvent.data (serialized ++ "\n")] }

/-- `Response.Write`: on first use, mark the transfer chunked and flush
headers; an empty payload then returns early; otherwise emit hex length,
the bytes, and the chunk terminator. -/
def Response.Write (r : Response) (dat : String) : Response :=
  let r := if r.headerWritten then r
           else (r.Header "Transfer-Encoding" "chunked").writeHeaders
  if dat.length = 0 then r
  else
    { r with
      out := r.out ++ [OutEvent.data (toHex dat.length ++ "\r\n"),
                       OutEvent.data dat, OutEvent.data "\r\n"] }

/-- The calls a handler can make on a `Response`, used to quantify over
arbitrary call sequences.  `Json` and `Write` carry their (serialized)
payload. -/
inductive ROp
  | Header (k v : String)
  | Status (s : String)
  | Json (serialized : String)
  | Write (dat : String)
  | End
deriving DecidableEq

/-- Apply one call. -/
def applyOp (r : Response) : ROp → Response
  | .Header k v => r.Header k v
  | .Status s => r.Status s
  | .Json s => r.Json s
  | .Write d => r.Write d
  | .End => r.End

/-- Apply a call sequence left to right. -/
def applyOps (r : Response) (ops : List ROp) : Response :=
  ops.foldl applyOp r

/-- The calls that trigger a header flush: `Json`, `Write`, `End`. -/
def isWriteTrigger (op : ROp) : Prop :=
  (∃ s, op = .Json s) ∨ (∃ d, op = .Write d) ∨ op = .End

/-- The pure mutators: `Status` and `Header`. -/
def isMutation (op : ROp) : Prop :=
  (∃ s, op = .Status s) ∨ (∃ k v, op = .Header k v)

/-- Is this event the status line? -/
def isStatusEvent : OutEvent → Bool
  | .writeStatus _ => true
  | _ => false

/-- The first status line among the emitted events: the status code of
the HTTP response actually sent. -/
def firstStatus : List OutEvent → Option Int
  | [] => none
  | .writeStatus c :: _ => some c
  | _ :: rest => firstStatus rest

/-- The values emitted by `Set` for a given header name, in order. -/
def valuesFor (n : String) (evs : List OutEvent) : List String :=
  evs.filterMap fun e =>
    match e with
    | .setHeader k v => if k = n then some v else none
    | _ => none

/-! ## AdmissionGate (the buffered channel `workerPool`)

`handleRequest` begins with `s.workerPool <- struct{}{}` and defers
`<-s.workerPool`; the channel has capacity `runtime.NumCPU() * 100`.  We
model it as a counting semaphore: the state is the number of handlers
currently holding a slot, a send (acquire) is enabled only below
capacity, a receive (release) only above zero. -/

/-- Capacity of the worker pool created by `NewServer`:
`runtime.NumCPU() * 100`. -/
def gateCapacity (numCPU : Nat) : Nat := numCPU * 100

/-- One transition of the admission gate. -/
inductive GateStep (cap : Nat) : Nat → Nat → Prop
  | acquire {n : Nat} : n < cap → GateStep cap n (n + 1)
  | release {n : Nat} : 0 < n → GateStep cap n (n - 1)

/-- States reachable from the idle gate (no handler running). -/
inductive GateReach (cap : Nat) : Nat → Prop
  | init : GateReach cap 0
  | step {m n : Nat} : GateReach cap m → GateStep cap m n → GateReach cap n

/-! ## The demo application (`main.go`): user repository and handlers -/

/-- The `User` struct (`json` tags: id, name, phone, age). -/
structure User where
  id : Int
  name : String
  phone : String
  age : Int
deriving DecidableEq

/-- The seed data of `NewUserRepository`. -/
def seedUsers : List User :=
  [{ id := 1, name := "Pavan Illa", phone := "9381122977", age := 24 },
   { id := 2, name := "John Doe", phone := "9381122988", age := 28 },
   { id := 3, name := "Peter Griffin", phone := "8978987899", age := 44 }]

/-- `UserRepository.GetAll`. -/
def getAll (users : List User) : List User := users

/-- `UserRepository.GetByID`: first user with the given id, if any. -/
def getByID (users : List User) (uid : Int) : Option User :=
  match users with
  | [] => none
  | u :: rest => if u.id = uid then some u else getByID rest uid

/-- `UserRepository.Add`: the stored id is `len(ur.users) + 1`; the
record is appended and the stored copy returned. -/
def repoAdd (users : List User) (u : User) : List User × User :=
  let u' := { u with id := (users.length : Int) + 1 }
  (users ++ [u'], u')

/-- A sequence of `Add` calls, in order. -/
def addMany (users : List User) : List User → List User
  | [] => users
  | u :: us => addMany (repoAdd users u).1 us

/-- The largest id present (0 for an empty repository). -/
def maxId (users : List User) : Int :=
  users.foldl (fun m u => max m u.id) 0

/-! Serialized JSON bodies.  `encoding/json` is an external collaborator
(spec §1); these definitions record the exact text it produces for the
values the handlers pass to `Json`: struct fields in declaration order
with their tag names, map keys in sorted order. -/

/-- `encoding/json` output for a `User` value (no characters needing
escapes occur in the repository's data). -/
def serializeUser (u : User) : String :=
  "\x7b\"id\":" ++ toString u.id ++ ",\"name\":\"" ++ u.name
    ++ "\",\"phone\":\"" ++ u.phone ++ "\",\"age\":" ++ toString u.age ++ "\x7d"

/-- `encoding/json` output for a list of users. -/
def serializeUsers (users : List User) : String :=
  "[" ++ String.intercalate "," (users.map serializeUser) ++ "]"

/-- `{"error":"Invalid UserId"}` as emitted by `encoding/json`. -/
def jsonInvalidUserId : String := "\x7b\"error\":\"Invalid UserId\"\x7d"

/-- `{"error":"User not found"}` as emitted by `encoding/json`. -/
def jsonUserNotFound : String := "\x7b\"error\":\"User not found\"\x7d"

/-- `{"error":"Invalid request body"}`. -/
def jsonInvalidBody : String := "\x7b\"error\":\"Invalid request body\"\x7d"

/-- `{"error":"Name is required"}`. -/
def jsonNameRequired : String := "\x7b\"error\":\"Name is required\"\x7d"

/-- `{"error":"Phone is required"}`. -/
def jsonPhoneRequired : String := "\x7b\"error\":\"Phone is required\"\x7d"

/-- `{"error":"Invalid age"}`. -/
def jsonInvalidAge : String := "\x7b\"error\":\"Invalid age\"\x7d"

/-- `{"message":"Student added successfully","user":<user>}` (map keys in
`encoding/json`'s sorted order). -/
def serializeAddResp (u : User) : String :=
  "\x7b\"message\":\"Student added successfully\",\"user\":"
    ++ serializeUser u ++ "\x7d"

/-- `res.Status(s).Json(body)`, the response pattern of every handler. -/
def respond (r : Response) (s body : String) : Response :=
  (r.Status s).Json body

/-- The `GET /get-all-users` handler. -/
def getAllHandler (users : List User) (r : Response) : Response :=
  respond r "200" (serializeUsers (getAll users))

/-- The `GET /get-user/:userId` handler: `Atoi` failure → 400, missing
user → 404, otherwise 200 with the record. -/
def getUserHandler (users : List User) (ps : Params) (r : Response) :
    Response :=
  let userIdStr := pathParam ps "userId"
  match atoi? userIdStr with
  | none => respond r "400" jsonInvalidUserId
  | some uid =>
    match getByID users uid with
    | none => respond r "404" jsonUserNotFound
    | some u => respond r "200" (serializeUser u)

/-- The `POST /add-student` handler, given the decoded body
(`Body[User]` returns `nil` on a malformed payload → `none`).  Returns
the updated repository and the response. -/
def addStudentHandler (users : List User) (body : Option User)
    (r : Response) : List User × Response :=
  match body with
  | none => (users, respond r "400" jsonInvalidBody)
  | some u =>
    if u.name = "" then (users, respond r "400" jsonNameRequired)
    else if u.phone = "" then (users, respond r "400" jsonPhoneRequired)
    else if u.age ≤ 0 then (users, respond r "400" jsonInvalidAge)
    else
      let added := repoAdd users u
      (added.1, respond r "201" (serializeAddResp added.2))

/-- The GET routes of `main`, in registration order (`app.Get` calls);
handler 0 is the get-all-users closure, handler 1 the get-user closure. -/
def demoGetRoutes : List Route :=
  [{ path := "/get-all-users", handler := 0 },
   { path := "/get-user/:userId", handler := 1 }]

/-! ## Lemmas about the matcher -/

/-- Literal compatibility of a pattern with a path: same shape, and every
non-parameter pattern segment equals the corresponding path segment. -/
def litOK : List String → List String → Bool
  | [], [] => true
  | rp :: rps, pp :: pps => (isParamSeg rp || rp == pp) && litOK rps pps
  | _, _ => false

theorem matchLoop_isSome (rps pps : List String) (ps : Params) :
    (matchLoop rps pps ps).isSome = litOK rps pps := by
  induction rps generalizing pps ps with
  | nil => cases pps <;> simp [matchLoop, litOK]
  | cons rp rps ih =>
    cases pps with
    | nil => simp [matchLoop, litOK]
    | cons pp pps =>
      by_cases hp : isParamSeg rp
      · simp [matchLoop, litOK, hp, ih]
      · by_cases he : rp = pp
        · subst he
          simp [matchLoop, litOK, hp, ih]
        · simp [matchLoop, litOK, hp, he]

theorem litOK_iff (rps pps : List String) (hlen : rps.length = pps.length) :
    litOK rps pps = true ↔
      ∀ (i : Nat) (h1 : i < rps.length) (h2 : i < pps.length),
        ¬ isParamSeg (rps.get ⟨i, h1⟩) = true →
          rps.get ⟨i, h1⟩ = pps.get ⟨i, h2⟩ := by
  induction rps generalizing pps with
  | nil =>
    cases pps with
    | nil => simp [litOK]
    | cons pp pps => simp at hlen
  | cons rp rps ih =>
    cases pps with
    | nil => simp at hlen
    | cons pp pps =>
      replace hlen : rps.length = pps.length := by simpa using hlen
      constructor
      · intro h i h1 h2 hnp
        simp only [litOK, Bool.and_eq_true, Bool.or_eq_true, beq_iff_eq] at h
        cases i with
        | zero =>
          rcases h.1 with hp | he
          · exact absurd hp hnp
          · exact he
        | succ i =>
          exact (ih pps hlen).mp h.2 i (Nat.lt_of_succ_lt_succ h1)
            (Nat.lt_of_succ_lt_succ h2) hnp
      · intro h
        simp only [litOK, Bool.and_eq_true, Bool.or_eq_true, beq_iff_eq]
        refine ⟨?_, ?_⟩
        · by_cases hp : isParamSeg rp
          · exact Or.inl hp
          · refine Or.inr ?_
            have := h 0 (Nat.succ_pos _) (Nat.succ_pos _)
            simpa using this (by simpa using hp)
        · refine (ih pps hlen).mpr fun i h1 h2 hnp => ?_
          have := h (i + 1) (Nat.succ_lt_succ h1) (Nat.succ_lt_succ h2)
          simpa using this (by simpa using hnp)

/-- The parameter bindings a successful match produces, in
left-to-right segment order. -/
def bindings : List String → List String → Params
  | rp :: rps, pp :: pps =>
    if isParamSeg rp then (dropColon rp, pp) :: bindings rps pps
    else bindings rps pps
  | _, _ => []

theorem matchLoop_eq_bindings (rps pps : List String) (ps res : Params)
    (h : matchLoop rps pps ps = some res) :
    res = (bindings rps pps).reverse ++ ps := by
  induction rps generalizing pps ps with
  | nil =>
    cases pps with
    | nil =>
      simp only [matchLoop, Option.some.injEq] at h
      simp [bindings, ← h]
    | cons pp pps => simp [matchLoop] at h
  | cons rp rps ih =>
    cases pps with
    | nil => simp [matchLoop] at h
    | cons pp pps =>
      by_cases hp : isParamSeg rp
      · simp only [matchLoop, hp, if_true] at h
        have := ih pps _ h
        simp [bindings, hp, this]
      · by_cases he : rp = pp
        · subst he
          simp only [matchLoop, hp, if_neg, if_pos, Bool.false_eq_true,
            reduceIte] at h
          have := ih pps _ h
          simp [bindings, hp, this]
        · simp [matchLoop, hp, he] at h

theorem mem_bindings (rps pps : List String) (i : Nat)
    (h1 : i < rps.length) (h2 : i < pps.length)
    (hp : isParamSeg (rps.get ⟨i, h1⟩) = true) :
    (dropColon (rps.get ⟨i, h1⟩), pps.get ⟨i, h2⟩) ∈ bindings rps pps := by
  induction rps generalizing pps i with
  | nil => exact absurd h1 (by simp)
  | cons rp rps ih =>
    cases pps with
    | nil => exact absurd h2 (by simp)
    | cons pp pps =>
      cases i with
      | zero =>
        have hp' : isParamSeg rp = true := hp
        show (dropColon rp, pp) ∈ bindings (rp :: rps) (pp :: pps)
        simp [bindings, hp']
      | succ i =>
        have hp' : isParamSeg (rps.get ⟨i, Nat.lt_of_succ_lt_succ h1⟩) = true := hp
        have := ih pps i (Nat.lt_of_succ_lt_succ h1) (Nat.lt_of_succ_lt_succ h2) hp'
        by_cases hhd : isParamSeg rp
        · simp only [bindings, hhd, if_pos, List.mem_cons]
          exact Or.inr (by simpa using this)
        · simp only [bindings, hhd, Bool.false_eq_true, reduceIte]
          exact (by simpa using this)

/-- C1: with equal segment counts, the matcher succeeds iff every literal
(non-`:`-prefixed) pattern segment is byte-equal to the corresponding path
segment, and on success every `:`-prefixed segment's name is bound to the
corresponding path segment, whatever its value. -/
theorem pathMatcher_literals_iff_and_params_bind (rps pps : List String)
    (hlen : rps.length = pps.length) :
    ((matchSegs rps pps).isSome = true ↔
      ∀ (i : Nat) (h1 : i < rps.length) (h2 : i < pps.length),
        ¬ isParamSeg (rps.get ⟨i, h1⟩) = true →
          rps.get ⟨i, h1⟩ = pps.get ⟨i, h2⟩) ∧
    (∀ res, matchSegs rps pps = some res →
      ∀ (i : Nat) (h1 : i < rps.length) (h2 : i < pps.length),
        isParamSeg (rps.get ⟨i, h1⟩) = true →
          (dropColon (rps.get ⟨i, h1⟩), pps.get ⟨i, h2⟩) ∈ res) := by
  constructor
  · rw [matchSegs, matchLoop_isSome]
    exact litOK_iff rps pps hlen
  · intro res hres i h1 h2 hp
    have hchar := matchLoop_eq_bindings rps pps [] res hres
    rw [hchar, List.append_nil, List.mem_reverse]
    exact mem_bindings rps pps i h1 h2 hp

/-- Concrete instance of C1: the pattern `users/:id` against the path
`users/42`. -/
theorem pathMatcher_literals_iff_and_params_bind_witness :
    (matchSegs ["users", ":id"] ["users", "42"]).isSome = true :=
  ((pathMatcher_literals_iff_and_params_bind ["users", ":id"]
    ["users", "42"] rfl).1).mpr (by decide)

/-! ## Lookup lemmas for duplicate parameter names (C10) -/

theorem mapGet_append_left {α : Type} (l1 l2 : List (String × α)) (k : String)
    (v : α) (h : mapGet l1 k = some v) : mapGet (l1 ++ l2) k = some v := by
  induction l1 with
  | nil => simp [mapGet] at h
  | cons kv rest ih =>
    obtain ⟨k', v'⟩ := kv
    rw [List.cons_append]
    by_cases hk : k' = k
    · simp [mapGet, hk] at h ⊢
      exact h
    · simp [mapGet, hk] at h ⊢
      exact ih h

theorem mapGet_append_right {α : Type} (l1 l2 : List (String × α)) (k : String)
    (h : k ∉ l1.map Prod.fst) : mapGet (l1 ++ l2) k = mapGet l2 k := by
  induction l1 with
  | nil => simp
  | cons kv rest ih =>
    obtain ⟨k', v'⟩ := kv
    simp only [List.map_cons, List.mem_cons] at h
    push_neg at h
    have hne : ¬ (k' = k) := fun e => h.1 e.symm
    simp [mapGet, hne, ih h.2]

theorem keys_bindings (rps pps : List String) (k : String)
    (h : k ∈ (bindings rps pps).map Prod.fst) :
    ∃ (j : Nat) (hj : j < rps.length),
      isParamSeg (rps.get ⟨j, hj⟩) = true ∧ dropColon (rps.get ⟨j, hj⟩) = k := by
  induction rps generalizing pps with
  | nil => cases pps <;> simp [bindings] at h
  | cons rp rps ih =>
    cases pps with
    | nil => simp [bindings] at h
    | cons pp pps =>
      by_cases hhd : isParamSeg rp
      · simp only [bindings, hhd, if_pos, List.map_cons, List.mem_cons] at h
        rcases h with h | h
        · exact ⟨0, Nat.succ_pos _, hhd, h.symm⟩
        · obtain ⟨j, hj, hpj, hkj⟩ := ih pps h
          exact ⟨j + 1, Nat.succ_lt_succ hj, hpj, hkj⟩
      · simp only [bindings, hhd, Bool.false_eq_true, reduceIte] at h
        obtain ⟨j, hj, hpj, hkj⟩ := ih pps h
        exact ⟨j + 1, Nat.succ_lt_succ hj, hpj, hkj⟩

theorem lookup_reverse_bindings (rps pps : List String) (i : Nat)
    (h1 : i < rps.length) (h2 : i < pps.length)
    (hp : isParamSeg (rps.get ⟨i, h1⟩) = true)
    (hlast : ∀ (j : Nat) (hj : j < rps.length), i < j →
      isParamSeg (rps.get ⟨j, hj⟩) = true →
      dropColon (rps.get ⟨j, hj⟩) ≠ dropColon (rps.get ⟨i, h1⟩)) :
    mapGet ((bindings rps pps).reverse) (dropColon (rps.get ⟨i, h1⟩))
      = some (pps.get ⟨i, h2⟩) := by
  induction rps generalizing pps i with
  | nil => exact absurd h1 (by simp)
  | cons rp rps ih =>
    cases pps with
    | nil => exact absurd h2 (by simp)
    | cons pp pps =>
      cases i with
      | zero =>
        have hp' : isParamSeg rp = true := hp
        have hnotin : dropColon rp ∉ ((bindings rps pps).reverse).map Prod.fst := by
          intro hmem
          rw [List.map_reverse, List.mem_reverse] at hmem
          obtain ⟨j, hj, hpj, hkj⟩ := keys_bindings rps pps _ hmem
          exact hlast (j + 1) (Nat.succ_lt_succ hj) (Nat.succ_pos j) hpj hkj
        show mapGet ((bindings (rp :: rps) (pp :: pps)).reverse) (dropColon rp)
          = some pp
        rw [show bindings (rp :: rps) (pp :: pps)
              = (dropColon rp, pp) :: bindings rps pps from by simp [bindings, hp'],
          List.reverse_cons, mapGet_append_right _ _ _ hnotin]
        simp [mapGet]
      | succ i =>
        have h1' := Nat.lt_of_succ_lt_succ h1
        have h2' := Nat.lt_of_succ_lt_succ h2
        have hp' : isParamSeg (rps.get ⟨i, h1'⟩) = true := hp
        have hlast' : ∀ (j : Nat) (hj : j < rps.length), i < j →
            isParamSeg (rps.get ⟨j, hj⟩) = true →
            dropColon (rps.get ⟨j, hj⟩) ≠ dropColon (rps.get ⟨i, h1'⟩) :=
          fun j hj hij hpj => hlast (j + 1) (Nat.succ_lt_succ hj)
            (Nat.succ_lt_succ hij) hpj
        have IH := ih pps i h1' h2' hp' hlast'
        by_cases hhd : isParamSeg rp
        · rw [show bindings (rp :: rps) (pp :: pps)
                = (dropColon rp, pp) :: bindings rps pps from by simp [bindings, hhd],
            List.reverse_cons]
          exact mapGet_append_left _ _ _ _ IH
        · rw [show bindings (rp :: rps) (pp :: pps)
                = bindings rps pps from by simp [bindings, hhd]]
          exact IH

/-- C10: a pattern that repeats a parameter name still matches any path
with the right segment count and compatible literals, and the binding the
request sees (`PathParam`) is the path segment at the last position where
the marker occurs. -/
theorem pathMatcher_duplicate_param_last_wins (rps pps : List String)
    (hlen : rps.length = pps.length)
    (hlit : ∀ (i : Nat) (h1 : i < rps.length) (h2 : i < pps.length),
      ¬ isParamSeg (rps.get ⟨i, h1⟩) = true →
        rps.get ⟨i, h1⟩ = pps.get ⟨i, h2⟩) :
    ∃ res, matchSegs rps pps = some res ∧
      ∀ (i : Nat) (h1 : i < rps.length) (h2 : i < pps.length),
        isParamSeg (rps.get ⟨i, h1⟩) = true →
        (∀ (j : Nat) (hj : j < rps.length), i < j →
          isParamSeg (rps.get ⟨j, hj⟩) = true →
          dropColon (rps.get ⟨j, hj⟩) ≠ dropColon (rps.get ⟨i, h1⟩)) →
        pathParam res (dropColon (rps.get ⟨i, h1⟩)) = pps.get ⟨i, h2⟩ := by
  have hsome : (matchSegs rps pps).isSome = true := by
    rw [matchSegs, matchLoop_isSome]
    exact (litOK_iff rps pps hlen).mpr hlit
  obtain ⟨res, hres⟩ := Option.isSome_iff_exists.mp hsome
  refine ⟨res, hres, ?_⟩
  intro i h1 h2 hp hlast
  have hchar := matchLoop_eq_bindings rps pps [] res hres
  rw [pathParam, lookupParam, hchar, List.append_nil,
    lookup_reverse_bindings rps pps i h1 h2 hp hlast]
  rfl

/-- Concrete instance of C10: the pattern `:x/:x` against `a/b` matches
and `PathParam "x"` is `"b"`, the segment at the later position. -/
theorem pathMatcher_duplicate_param_last_wins_witness :
    ∃ res, matchSegs [":x", ":x"] ["a", "b"] = some res ∧
      pathParam res "x" = "b" := by
  obtain ⟨res, hres, hlook⟩ :=
    pathMatcher_duplicate_param_last_wins [":x", ":x"] ["a", "b"] rfl
      (by
        intro i h1 h2 hnp
        exfalso
        apply hnp
        have hi : i < 2 := by simpa using h1
        interval_cases i <;> rfl)
  refine ⟨res, hres, ?_⟩
  have := hlook 1 (by decide) (by decide) rfl
    (fun j hj hij hpj =>
      absurd hij (by
        have hj2 : j < 2 := by simpa using hj
        omega))
  exact this

/-! ## RouteTable lemmas and C2 -/

theorem foldl_addRoute (rs : List Route) (acc : List Route) :
    rs.foldl addRoute acc = acc ++ rs := by
  induction rs generalizing acc with
  | nil => simp
  | cons r rs ih => simp [List.foldl_cons, addRoute, ih]

theorem registerAll_eq (rs : List Route) : registerAll rs = rs := by
  simp [registerAll, foldl_addRoute]

/-- C2: after registering routes in order through `addRoute`, a lookup on
a path that matches the k-th route and none of the earlier ones returns
the k-th route's handler together with the parameters bound by that
route's pattern — insertion order is match-priority order. -/
theorem routeTable_first_match_wins (rs : List Route) (pathParts : List String)
    (k : Nat) (hk : k < rs.length) (res : Params)
    (hmatch : tryMatch (rs.get ⟨k, hk⟩).path pathParts = some res)
    (hearlier : ∀ (j : Nat) (hj : j < k),
      tryMatch (rs.get ⟨j, Nat.lt_trans hj hk⟩).path pathParts = none) :
    lookupRoute (registerAll rs) pathParts =
      some ((rs.get ⟨k, hk⟩).handler, res) := by
  rw [registerAll_eq]
  induction rs generalizing k with
  | nil => exact absurd hk (by simp)
  | cons r rs ih =>
    cases k with
    | zero =>
      have hm : tryMatch r.path pathParts = some res := hmatch
      simp [lookupRoute, hm]
    | succ k =>
      have h0 : tryMatch r.path pathParts = none := hearlier 0 (Nat.succ_pos k)
      have hk' := Nat.lt_of_succ_lt_succ hk
      have hmatch' : tryMatch (rs.get ⟨k, hk'⟩).path pathParts = some res := hmatch
      have hearlier' : ∀ (j : Nat) (hj : j < k),
          tryMatch (rs.get ⟨j, Nat.lt_trans hj hk'⟩).path pathParts = none :=
        fun j hj => hearlier (j + 1) (Nat.succ_lt_succ hj)
      simp only [lookupRoute, h0]
      exact ih k hk' hmatch' hearlier'

/-- Concrete instance of C2: with two registered GET routes, a path that
misses the first and matches the second is dispatched to the second
handler with its binding. -/
theorem routeTable_first_match_wins_witness :
    lookupRoute (registerAll [{ path := "/health", handler := 7 },
      { path := "/get-user/:u", handler := 8 }]) ["get-user", "5"]
      = some (8, [("u", "5")]) := by
  refine routeTable_first_match_wins
    [{ path := "/health", handler := 7 }, { path := "/get-user/:u", handler := 8 }]
    ["get-user", "5"] 1 (by decide) [("u", "5")] ?_ ?_
  · exact (by decide :
      tryMatch "/get-user/:u" ["get-user", "5"] = some [("u", "5")])
  · intro j hj
    have hj0 : j = 0 := by omega
    subst hj0
    exact (by decide : tryMatch "/health" ["get-user", "5"] = none)

/-! ## AdmissionGate: C3 -/

theorem gateReach_le (cap n : Nat) (h : GateReach cap n) : n ≤ cap := by
  induction h with
  | init => exact Nat.zero_le _
  | step hr hs ih =>
    cases hs with
    | acquire hlt => omega
    | release hpos => omega

theorem gateStep_cases (cap a b : Nat) (h : GateStep cap a b) :
    (a < cap ∧ b = a + 1) ∨ (0 < a ∧ b = a - 1) := by
  cases h with
  | acquire hlt => exact Or.inl ⟨hlt, rfl⟩
  | release hpos => exact Or.inr ⟨hpos, rfl⟩

/-- C3: the number of handlers concurrently holding a worker-pool slot
never exceeds `runtime.NumCPU() * 100`; when the pool is full the next
acquire is not enabled, and it becomes enabled again exactly when some
holder releases. -/
theorem admissionGate_bounded (numCPU n : Nat)
    (h : GateReach (gateCapacity numCPU) n) :
    n ≤ gateCapacity numCPU ∧
    ¬ GateStep (gateCapacity numCPU) (gateCapacity numCPU)
      (gateCapacity numCPU + 1) ∧
    (0 < gateCapacity numCPU →
      GateStep (gateCapacity numCPU) (gateCapacity numCPU)
        (gateCapacity numCPU - 1) ∧
      GateStep (gateCapacity numCPU) (gateCapacity numCPU - 1)
        (gateCapacity numCPU)) := by
  refine ⟨gateReach_le _ _ h, ?_, ?_⟩
  · intro hstep
    rcases gateStep_cases _ _ _ hstep with ⟨ha, hb⟩ | ⟨ha, hb⟩ <;> omega
  · intro hcap
    constructor
    · exact GateStep.release hcap
    · have : gateCapacity numCPU - 1 + 1 = gateCapacity numCPU := by omega
      exact this ▸ GateStep.acquire (by omega)

/-- Concrete instance of C3: one handler running on a 1-CPU machine is
within the capacity of 100. -/
theorem admissionGate_bounded_witness : 1 ≤ gateCapacity 1 :=
  (admissionGate_bounded 1 1
    (GateReach.step GateReach.init (GateStep.acquire (by decide)))).1

/-! ## ResponseWriter: C4 (header flush happens at most once) -/

/-- Number of status lines among the emitted events. -/
def countStatus (evs : List OutEvent) : Nat := evs.countP isStatusEvent

theorem countP_setHeaders (hs : List (String × String)) :
    (hs.map fun kv => OutEvent.setHeader kv.1 kv.2).countP isStatusEvent = 0 := by
  induction hs with
  | nil => rfl
  | cons kv rest ih => simp [List.countP_cons, isStatusEvent, ih]

theorem writeHeaders_of_true (r : Response) (h : r.headerWritten = true) :
    r.writeHeaders = r := by
  simp [Response.writeHeaders, h]

theorem writeHeaders_headerWritten (r : Response) :
    r.writeHeaders.headerWritten = true := by
  by_cases h : r.headerWritten <;> simp [Response.writeHeaders, h]

theorem countP_comp_setHeader (hs : List (String × String)) :
    hs.countP (isStatusEvent ∘ fun kv => OutEvent.setHeader kv.1 kv.2) = 0 := by
  induction hs with
  | nil => rfl
  | cons kv rest ih =>
    simp [List.countP_cons, isStatusEvent, Function.comp, ih]

/-- The calls that can trigger a header flush. -/
def flushes : ROp → Bool
  | .Header _ _ => false
  | .Status _ => false
  | _ => true

theorem applyOp_headerWritten (r : Response) (op : ROp) :
    (applyOp r op).headerWritten = (r.headerWritten || flushes op) := by
  cases op with
  | Header k v =>
    cases hw : r.headerWritten <;>
      simp [applyOp, Response.Header, hw, flushes]
  | Status s => simp [applyOp, Response.Status, flushes]
  | Json s =>
    cases hw : r.headerWritten <;>
      simp [applyOp, Response.Json, Response.Header, Response.writeHeaders, hw,
        flushes]
  | Write d =>
    cases hw : r.headerWritten <;> by_cases hd : d.length = 0 <;>
      simp [applyOp, Response.Write, Response.Header, Response.writeHeaders, hw,
        hd, flushes]
  | End =>
    cases hw : r.headerWritten <;>
      by_cases hte : (mapGet r.headers "Transfer-Encoding").getD ""
        = "chunked" <;>
      simp [applyOp, Response.End, Response.writeHeaders, hw, hte, flushes]

theorem countStatus_applyOp (r : Response) (op : ROp) :
    countStatus (applyOp r op).out = countStatus r.out +
      (if r.headerWritten = false ∧ flushes op = true then 1 else 0) := by
  cases op with
  | Header k v =>
    cases hw : r.headerWritten <;>
      simp [applyOp, Response.Header, hw, flushes]
  | Status s => simp [applyOp, Response.Status, flushes]
  | Json s =>
    cases hw : r.headerWritten <;>
      simp [applyOp, Response.Json, Response.Header, Response.writeHeaders, hw,
        flushes, countStatus, List.countP_append, List.countP_cons, isStatusEvent,
        countP_setHeaders, countP_comp_setHeader]
  | Write d =>
    cases hw : r.headerWritten <;> by_cases hd : d.length = 0 <;>
      simp [applyOp, Response.Write, Response.Header, Response.writeHeaders, hw,
        hd, flushes, countStatus, List.countP_append, List.countP_cons,
        isStatusEvent, countP_setHeaders, countP_comp_setHeader]
  | End =>
    cases hw : r.headerWritten <;>
      by_cases hte : (mapGet r.headers "Transfer-Encoding").getD ""
        = "chunked" <;>
      simp [applyOp, Response.End, Response.writeHeaders, hw, hte, flushes,
        countStatus, List.countP_append, List.countP_cons, isStatusEvent,
        countP_setHeaders, countP_comp_setHeader]

theorem applyOps_status_le_one (ops : List ROp) (r : Response)
    (h0 : r.headerWritten = false → countStatus r.out = 0)
    (h1 : countStatus r.out ≤ 1) :
    countStatus (applyOps r ops).out ≤ 1 := by
  induction ops generalizing r with
  | nil => exact h1
  | cons op ops ih =>
    show countStatus (applyOps (applyOp r op) ops).out ≤ 1
    apply ih
    · intro hfw
      rw [applyOp_headerWritten] at hfw
      simp only [Bool.or_eq_false_iff] at hfw
      rw [countStatus_applyOp, h0 hfw.1]
      simp [hfw.2]
    · rw [countStatus_applyOp]
      cases hw : r.headerWritten with
      | true => simpa [hw] using h1
      | false =>
        rw [h0 hw]
        split <;> omega

/-- C4: from a fresh `Response`, whatever sequence of `Json`, `Write`,
`End`, `Header`, `Status` calls a handler makes, the status line (and with
it the recorded headers) is pushed to the underlying writer at most once;
and once the flag is latched, `writeHeaders` is the identity, so every
later flush attempt is a no-op. -/
theorem responseWriter_flush_at_most_once :
    (∀ ops : List ROp, countStatus (applyOps newResponse ops).out ≤ 1) ∧
    (∀ r : Response, r.headerWritten = true → r.writeHeaders = r) := by
  constructor
  · intro ops
    exact applyOps_status_le_one ops newResponse (fun _ => rfl) (by simp [newResponse, countStatus])
  · intro r h
    exact writeHeaders_of_true r h

/-- Concrete instance of C4: a handler that calls `Json`, then `End`,
then `Write` still pushes the status line once; flushing an
already-flushed response changes nothing. -/
theorem responseWriter_flush_at_most_once_witness :
    countStatus (applyOps newResponse
      [ROp.Json "x", ROp.End, ROp.Write "y"]).out ≤ 1 ∧
    Response.writeHeaders
      { headerWritten := true, status := 200, headers := [], out := [] } =
      { headerWritten := true, status := 200, headers := [], out := [] } :=
  ⟨responseWriter_flush_at_most_once.1 [ROp.Json "x", ROp.End, ROp.Write "y"],
   responseWriter_flush_at_most_once.2 _ rfl⟩

/-! ## ResponseWriter: C5 (mutations after a flush are invisible) -/

theorem applyOp_flushed_sim (r1 r2 : Response) (op : ROp)
    (hw1 : r1.headerWritten = true) (hw2 : r2.headerWritten = true)
    (hh : r1.headers = r2.headers) (ho : r1.out = r2.out) :
    (applyOp r1 op).headerWritten = true ∧
    (applyOp r2 op).headerWritten = true ∧
    (applyOp r1 op).headers = (applyOp r2 op).headers ∧
    (applyOp r1 op).out = (applyOp r2 op).out := by
  cases op with
  | Header k v => simp [applyOp, Response.Header, hw1, hw2, hh, ho]
  | Status s => simp [applyOp, Response.Status, hw1, hw2, hh, ho]
  | Json s =>
    simp [applyOp, Response.Json, Response.Header, Response.writeHeaders,
      hw1, hw2, hh, ho]
  | Write d =>
    by_cases hd : d.length = 0 <;>
      simp [applyOp, Response.Write, hw1, hw2, hh, ho, hd]
  | End =>
    by_cases hte : (mapGet r1.headers "Transfer-Encoding").getD "" = "chunked"
    · have hte2 : (mapGet r2.headers "Transfer-Encoding").getD "" = "chunked" :=
        hh ▸ hte
      simp [applyOp, Response.End, Response.writeHeaders, hw1, hw2, hh, ho,
        hte, hte2]
    · have hte2 :
          ¬ (mapGet r2.headers "Transfer-Encoding").getD "" = "chunked" :=
        hh ▸ hte
      simp [applyOp, Response.End, Response.writeHeaders, hw1, hw2, hh, ho,
        hte, hte2]

theorem applyOps_flushed_out_eq (ops : List ROp) (r1 r2 : Response)
    (hw1 : r1.headerWritten = true) (hw2 : r2.headerWritten = true)
    (hh : r1.headers = r2.headers) (ho : r1.out = r2.out) :
    (applyOps r1 ops).out = (applyOps r2 ops).out := by
  induction ops generalizing r1 r2 with
  | nil => exact ho
  | cons op ops ih =>
    obtain ⟨a, b, c, d⟩ := applyOp_flushed_sim r1 r2 op hw1 hw2 hh ho
    exact ih (applyOp r1 op) (applyOp r2 op) a b c d

theorem writeTrigger_flushes (r : Response) (w : ROp)
    (hw : isWriteTrigger w) : (applyOp r w).headerWritten = true := by
  rw [applyOp_headerWritten]
  rcases hw with ⟨s, rfl⟩ | ⟨d, rfl⟩ | rfl <;> simp [flushes]

/-- C5: a `Json`, `Write` or `End` call leaves the headers flushed, and
once flushed, a subsequent `Status` or `Header` call has no effect on the
emitted response: the bytes already written are untouched and every
continuation emits exactly the same bytes with or without the mutation. -/
theorem responseWriter_mutations_after_flush_ignored :
    (∀ (r : Response) (w : ROp), isWriteTrigger w →
      (applyOp r w).headerWritten = true) ∧
    (∀ (r : Response) (m : ROp), r.headerWritten = true → isMutation m →
      ∀ ops : List ROp,
        (applyOps (applyOp r m) ops).out = (applyOps r ops).out) := by
  constructor
  · exact writeTrigger_flushes
  · intro r m hw hm ops
    rcases hm with ⟨s, rfl⟩ | ⟨k, v, rfl⟩
    · exact applyOps_flushed_out_eq ops _ r
        (by simp [applyOp, Response.Status, hw]) hw
        (by simp [applyOp, Response.Status]) (by simp [applyOp, Response.Status])
    · have hnoop : applyOp r (ROp.Header k v) = r := by
        simp [applyOp, Response.Header, hw]
      rw [hnoop]

/-- Concrete instance of C5: after a `Json` call (which flushes), a
`Status "500"` changes nothing about what a following `End` emits. -/
theorem responseWriter_mutations_after_flush_ignored_witness :
    (applyOp newResponse (ROp.Json "x")).headerWritten = true ∧
    (applyOps (applyOp (applyOp newResponse (ROp.Json "x")) (ROp.Status "500"))
        [ROp.End]).out =
      (applyOps (applyOp newResponse (ROp.Json "x")) [ROp.End]).out :=
  ⟨responseWriter_mutations_after_flush_ignored.1 newResponse (ROp.Json "x")
      (Or.inl ⟨"x", rfl⟩),
   responseWriter_mutations_after_flush_ignored.2 _ (ROp.Status "500")
      (responseWriter_mutations_after_flush_ignored.1 newResponse (ROp.Json "x")
        (Or.inl ⟨"x", rfl⟩))
      (Or.inl ⟨"500", rfl⟩) [ROp.End]⟩

/-! ## ResponseWriter: C6 (empty `Write`) -/

/-- C6 counterexample: on a fresh response (headers not yet flushed), an
empty `Write` is NOT a no-op — it records `Transfer-Encoding: chunked`
and flushes the headers before the empty-payload early return. -/
theorem responseWriter_empty_write_not_noop_cex :
    newResponse.Write "" ≠ newResponse := by decide

/-- C6 amended: an empty `Write` emits no chunk; it is a complete no-op
when the headers are already flushed, while on an unflushed response it
still marks the transfer chunked and flushes the headers (and does
nothing else). -/
theorem responseWriter_empty_write (r : Response) :
    (r.headerWritten = true → r.Write "" = r) ∧
    (r.headerWritten = false →
      r.Write "" = (r.Header "Transfer-Encoding" "chunked").writeHeaders) := by
  constructor <;> intro h <;> simp [Response.Write, h]

/-- Concrete instance of the amended C6: on a flushed response, an empty
`Write` changes nothing. -/
theorem responseWriter_empty_write_witness :
    Response.Write
      { headerWritten := true, status := 204, headers := [], out := [] } "" =
      { headerWritten := true, status := 204, headers := [], out := [] } :=
  (responseWriter_empty_write _).1 rfl

/-! ## ResponseWriter: C9 (single-valued headers, last write wins) -/

/-- Model of `Request.Headers`: copy the inbound `http.Header`
(`map[string][]string`) into a fresh map; each value stays the full list
of that header's occurrences. -/
def requestHeaders (hs : List (String × List String)) :
    List (String × List String) :=
  hs.foldl (fun acc kv => mapSet acc kv.1 kv.2) []

/-- The values recorded for header name `n` in the headers map. -/
def headerVals (n : String) (m : List (String × String)) : List String :=
  m.filterMap fun kv => if kv.1 = n then some kv.2 else none

theorem headerVals_eq_nil (n : String) (m : List (String × String))
    (h : n ∉ m.map Prod.fst) : headerVals n m = [] := by
  induction m with
  | nil => rfl
  | cons kv rest ih =>
    simp only [List.map_cons, List.mem_cons] at h
    push_neg at h
    have h1 : ¬ (kv.1 = n) := fun e => h.1 e.symm
    simp only [headerVals, List.filterMap_cons, h1, if_neg, if_false,
      reduceIte]
    exact ih h.2

theorem mem_keys_mapSet {α : Type} (m : List (String × α)) (k a : String)
    (v : α) (h : a ∈ (mapSet m k v).map Prod.fst) :
    a ∈ m.map Prod.fst ∨ a = k := by
  induction m with
  | nil =>
    simp [mapSet] at h
    exact Or.inr h
  | cons kv rest ih =>
    obtain ⟨k', v'⟩ := kv
    by_cases hk : k' = k
    · subst hk
      rw [show mapSet ((k', v') :: rest) k' v = (k', v) :: rest from by
        simp [mapSet]] at h
      simp only [List.map_cons, List.mem_cons] at h ⊢
      rcases h with h | h
      · exact Or.inr h
      · exact Or.inl (Or.inr h)
    · rw [show mapSet ((k', v') :: rest) k v = (k', v') :: mapSet rest k v from by
        simp [mapSet, hk]] at h
      simp only [List.map_cons, List.mem_cons] at h ⊢
      rcases h with h | h
      · exact Or.inl (Or.inl h)
      · rcases ih h with h2 | h2
        · exact Or.inl (Or.inr h2)
        · exact Or.inr h2

theorem nodup_keys_mapSet {α : Type} (m : List (String × α)) (k : String)
    (v : α) (h : (m.map Prod.fst).Nodup) :
    ((mapSet m k v).map Prod.fst).Nodup := by
  induction m with
  | nil => simp [mapSet]
  | cons kv rest ih =>
    obtain ⟨k', v'⟩ := kv
    simp only [List.map_cons, List.nodup_cons] at h
    by_cases hk : k' = k
    · subst hk
      simpa [mapSet, List.nodup_cons] using h
    · simp only [mapSet, hk, if_neg, if_false, reduceIte, List.map_cons,
        List.nodup_cons]
      refine ⟨?_, ih h.2⟩
      intro hmem
      rcases mem_keys_mapSet rest k k' v hmem with h2 | h2
      · exact h.1 h2
      · exact hk h2

theorem headerVals_mapSet (m : List (String × String)) (n v : String)
    (h : (m.map Prod.fst).Nodup) : headerVals n (mapSet m n v) = [v] := by
  induction m with
  | nil => simp [mapSet, headerVals]
  | cons kv rest ih =>
    obtain ⟨k', v'⟩ := kv
    simp only [List.map_cons, List.nodup_cons] at h
    by_cases hk : k' = n
    · subst hk
      simp only [mapSet, if_pos, headerVals, List.filterMap_cons, reduceIte]
      have := headerVals_eq_nil k' rest h.1
      simpa [headerVals] using this
    · simp only [mapSet, hk, if_neg, if_false, reduceIte, headerVals,
        List.filterMap_cons]
      have := ih h.2
      simpa [headerVals, hk] using this

theorem valuesFor_setHeaders (n : String) (m : List (String × String)) :
    valuesFor n (m.map fun kv => OutEvent.setHeader kv.1 kv.2)
      = headerVals n m := by
  induction m with
  | nil => rfl
  | cons kv rest ih =>
    by_cases hk : kv.1 = n <;>
      simp only [valuesFor, headerVals, List.map_cons, List.filterMap_cons,
        hk, reduceIte] <;>
      simpa [valuesFor, headerVals] using ih

theorem Header_headerWritten (r : Response) (k v : String) :
    (r.Header k v).headerWritten = r.headerWritten := by
  by_cases h : r.headerWritten <;> simp [Response.Header, h]

theorem Header_out (r : Response) (k v : String) :
    (r.Header k v).out = r.out := by
  by_cases h : r.headerWritten <;> simp [Response.Header, h]

theorem Header_headers_unflushed (r : Response) (k v : String)
    (h : r.headerWritten = false) :
    (r.Header k v).headers = mapSet r.headers k v := by
  simp [Response.Header, h]

/-- C9: response headers are single-valued with last-write-wins
semantics: recording the same header name twice before the flush keeps
only the second value, and the flush emits exactly that one value for the
name — unlike request headers, which `Headers` exposes as full
multi-valued lists. -/
theorem responseHeaders_last_write_wins (r : Response) (n v1 v2 : String)
    (h1 : r.headerWritten = false) (h2 : r.out = [])
    (h3 : (r.headers.map Prod.fst).Nodup) :
    valuesFor n (((r.Header n v1).Header n v2).writeHeaders).out = [v2] ∧
    mapGet (requestHeaders [("X", ["a", "b"])]) "X" = some ["a", "b"] := by
  constructor
  · have hw1 : (r.Header n v1).headerWritten = false := by
      rw [Header_headerWritten]; exact h1
    have hw2 : ((r.Header n v1).Header n v2).headerWritten = false := by
      rw [Header_headerWritten, Header_headerWritten]; exact h1
    have hh2 : ((r.Header n v1).Header n v2).headers
        = mapSet (mapSet r.headers n v1) n v2 := by
      rw [Header_headers_unflushed _ _ _ hw1, Header_headers_unflushed _ _ _ h1]
    have ho2 : ((r.Header n v1).Header n v2).out = [] := by
      rw [Header_out, Header_out]; exact h2
    have hvals : headerVals n (mapSet (mapSet r.headers n v1) n v2) = [v2] :=
      headerVals_mapSet _ n v2 (nodup_keys_mapSet _ n v1 h3)
    rw [Response.writeHeaders]
    simp only [hw2, Bool.false_eq_true, reduceIte, ho2, hh2, List.nil_append]
    rw [valuesFor, List.filterMap_append]
    rw [show ((mapSet (mapSet r.headers n v1) n v2).map
        (fun kv => OutEvent.setHeader kv.1 kv.2)).filterMap
          (fun e => match e with
            | OutEvent.setHeader k v => if k = n then some v else none
            | _ => none)
        = headerVals n (mapSet (mapSet r.headers n v1) n v2) from
      valuesFor_setHeaders n _]
    simp [hvals]
  · decide

/-- Concrete instance of C9: two writes of header `X` on a fresh response
flush as the single value `"b"`. -/
theorem responseHeaders_last_write_wins_witness :
    valuesFor "X"
      (((newResponse.Header "X" "a").Header "X" "b").writeHeaders).out
      = ["b"] :=
  (responseHeaders_last_write_wins newResponse "X" "a" "b" rfl rfl
    (by simp [newResponse])).1

/-! ## End-to-end: C8 (`GET /get-user/abc` gives 400 Invalid UserId) -/

/-- C8: `/get-user/abc` splits into the two segments matched against the
GET route table; any path whose `userId` segment is not an integer is
routed to the get-user handler (handler 1, second registered GET route)
with that segment bound, and the handler emits status 400 with the JSON
body `{"error":"Invalid UserId"}`. -/
theorem getUser_nonInteger_is_400 (seg : String) (users : List User)
    (h : atoi? seg = none) :
    pathPartsOf "/get-user/abc" = ["get-user", "abc"] ∧
    lookupRoute demoGetRoutes ["get-user", seg] = some (1, [("userId", seg)]) ∧
    (getUserHandler users [("userId", seg)] newResponse).out =
      [OutEvent.setHeader "Content-Type" "application/json",
       OutEvent.writeStatus 400,
       OutEvent.data (jsonInvalidUserId ++ "\n")] := by
  refine ⟨by decide, ?_, ?_⟩
  · have e1 : pathPartsOf "/get-all-users" = ["get-all-users"] := by decide
    have e2 : pathPartsOf "/get-user/:userId" = ["get-user", ":userId"] := by
      decide
    have e3 : isParamSeg "get-user" = false := by decide
    have e4 : isParamSeg ":userId" = true := by decide
    have e5 : dropColon ":userId" = "userId" := by decide
    simp [lookupRoute, demoGetRoutes, tryMatch, e1, e2, matchLoop, e3, e4, e5]
  · have hpp : pathParam [("userId", seg)] "userId" = seg := by
      simp [pathParam, lookupParam, mapGet]
    have e6 : goAtoi "400" = (400 : Int) := by decide
    simp [getUserHandler, hpp, h, respond, Response.Json, Response.Status,
      Response.Header, Response.writeHeaders, newResponse, mapSet, e6]

/-- Concrete instance of C8: `GET /get-user/abc` against the seed
repository. -/
theorem getUser_nonInteger_is_400_witness :
    lookupRoute demoGetRoutes ["get-user", "abc"]
      = some (1, [("userId", "abc")]) ∧
    (getUserHandler seedUsers [("userId", "abc")] newResponse).out =
      [OutEvent.setHeader "Content-Type" "application/json",
       OutEvent.writeStatus 400,
       OutEvent.data (jsonInvalidUserId ++ "\n")] :=
  ⟨(getUser_nonInteger_is_400 "abc" seedUsers (by decide)).2.1,
   (getUser_nonInteger_is_400 "abc" seedUsers (by decide)).2.2⟩

/-! ## End-to-end: C7 (`POST /add-student` assigns max id + 1) -/

theorem maxId_append (us : List User) (u : User) :
    maxId (us ++ [u]) = max (maxId us) u.id := by
  simp [maxId, List.foldl_append]

theorem maxId_addMany (added users : List User)
    (hinv : maxId users = (users.length : Int)) :
    maxId (addMany users added) = ((addMany users added).length : Int) := by
  induction added generalizing users with
  | nil => simpa [addMany] using hinv
  | cons u us ih =>
    rw [addMany]
    apply ih
    simp only [repoAdd, maxId_append, hinv, List.length_append,
      List.length_singleton]
    push_cast
    omega

/-- The record the repository stores for Teja when it holds `n` users
before the `Add` (the decoded body carries id 0; `Add` overwrites it
with `n + 1`). -/
def tejaWith (n : Int) : User :=
  { id := n + 1, name := "Teja", phone := "123", age := 30 }

/-- C7: starting from the seed repository and after any sequence of
`Add`s, the add-student POST with body
`{"name":"Teja","phone":"123","age":30}` emits status 201, and the
repository afterwards contains (so `GetAll` returns) a record for Teja
whose id is one greater than the largest id present before the call. -/
theorem addStudent_assigns_max_plus_one (added : List User) :
    firstStatus ((addStudentHandler (addMany seedUsers added)
      (some { id := 0, name := "Teja", phone := "123", age := 30 })
      newResponse).2.out) = some 201 ∧
    ∃ u, u ∈ getAll ((addStudentHandler (addMany seedUsers added)
        (some { id := 0, name := "Teja", phone := "123", age := 30 })
        newResponse).1) ∧
      u.name = "Teja" ∧ u.phone = "123" ∧ u.age = 30 ∧
      u.id = maxId (addMany seedUsers added) + 1 := by
  have hinv : maxId (addMany seedUsers added)
      = ((addMany seedUsers added).length : Int) :=
    maxId_addMany added seedUsers (by decide)
  have hname : ¬ ("Teja" = "") := by decide
  have hphone : ¬ ("123" = "") := by decide
  have hage : ¬ ((30 : Int) ≤ 0) := by decide
  have hred : addStudentHandler (addMany seedUsers added)
      (some { id := 0, name := "Teja", phone := "123", age := 30 }) newResponse
      = ((addMany seedUsers added) ++
          [tejaWith ((addMany seedUsers added).length : Int)],
         respond newResponse "201" (serializeAddResp
           (tejaWith ((addMany seedUsers added).length : Int)))) := by
    simp [addStudentHandler, hname, hphone, hage, repoAdd, tejaWith]
  rw [hred]
  constructor
  · have e6 : goAtoi "201" = (201 : Int) := by decide
    simp [respond, Response.Json, Response.Status, Response.Header,
      Response.writeHeaders, newResponse, mapSet, firstStatus, e6]
  · refine ⟨tejaWith ((addMany seedUsers added).length : Int),
      ?_, rfl, rfl, rfl, ?_⟩
    · simp [getAll]
    · simp [tejaWith, hinv]

/-- Concrete instance of C7: the empty `Add` history — posting Teja to the
untouched seed repository gives 201 and id 4 = 3 + 1. -/
theorem addStudent_assigns_max_plus_one_witness :
    firstStatus ((addStudentHandler (addMany seedUsers [])
      (some { id := 0, name := "Teja", phone := "123", age := 30 })
      newResponse).2.out) = some 201 :=
  (addStudent_assigns_max_plus_one []).1
